import Mathlib

/-!
Verification of the stos subtitle timeline engine against its specification.

The Rust sources are embedded shallowly: machine integers (`i64`) become `Int`
with explicit clamping at the `i64` bounds where the source saturates, fallible
code returns `Except`/`Option`, and the stateful packet loops become folds over
event lists.
-/

set_option autoImplicit false
set_option maxRecDepth 4000

namespace Stos

/-! ## Time domain of the main crate (`src/time.rs`)

`Timestamp(i64)` and `Duration(i64)` are embedded as `Int` together with the
`i64` range bounds; the saturating operators clamp exactly as Rust's
`i64::saturating_add`/`saturating_sub` followed by `.max(0)` do.
-/

def i64Min : Int := -(2 ^ 63)

def i64Max : Int := 2 ^ 63 - 1

/-- Rust `i64::saturating_add` on in-range operands. -/
def i64SaturatingAdd (a b : Int) : Int := max i64Min (min (a + b) i64Max)

/-- Rust `i64::saturating_sub` on in-range operands. -/
def i64SaturatingSub (a b : Int) : Int := max i64Min (min (a - b) i64Max)

namespace Time

/-- `Timestamp` of `src/time.rs`: a wrapper around `i64` milliseconds. -/
structure Timestamp where
  millis : Int
deriving DecidableEq, Repr

/-- `Duration` of `src/time.rs`: a wrapper around `i64` milliseconds. -/
structure Duration where
  millis : Int
deriving DecidableEq, Repr

/-- `Timestamp::MIN` is zero milliseconds. -/
def Timestamp.min_const : Timestamp := ⟨0⟩

/-- `Timestamp::MAX` wraps `i64::MAX`. -/
def Timestamp.max_const : Timestamp := ⟨i64Max⟩

/-- `Timestamp::from_millis(millis: u32)`. -/
def Timestamp.from_millis (millis : Int) : Timestamp := ⟨millis⟩

/-- `Duration::from_millis(millis: i64)`. -/
def Duration.from_millis (millis : Int) : Duration := ⟨millis⟩

/-- `Timestamp::saturating_add`: `self.0.saturating_add(d.as_millis()).max(0)`. -/
def Timestamp.saturating_add (t : Timestamp) (d : Duration) : Timestamp :=
  ⟨max (i64SaturatingAdd t.millis d.millis) 0⟩

/-- `Timestamp::saturating_sub`: `self.0.saturating_sub(d.as_millis()).max(0)`. -/
def Timestamp.saturating_sub (t : Timestamp) (d : Duration) : Timestamp :=
  ⟨max (i64SaturatingSub t.millis d.millis) 0⟩

/-- The (unchecked) `Add<Duration> for Timestamp` impl: `Self(self.0 + d.as_millis())`. -/
def Timestamp.add (t : Timestamp) (d : Duration) : Timestamp := ⟨t.millis + d.millis⟩

instance : LE Timestamp := ⟨fun a b => a.millis ≤ b.millis⟩

instance : DecidableRel (· ≤ · : Timestamp → Timestamp → Prop) :=
  fun a b => inferInstanceAs (Decidable (a.millis ≤ b.millis))

/-- `Timestamp::min` coming from `Ord` (used by `Timespan::new`). -/
def Timestamp.minOf (a b : Timestamp) : Timestamp := ⟨min a.millis b.millis⟩

/-- `Timestamp::max` coming from `Ord` (used by `Timespan::new`). -/
def Timestamp.maxOf (a b : Timestamp) : Timestamp := ⟨max a.millis b.millis⟩

/-- `Timespan` of `src/time.rs`. -/
structure Timespan where
  start : Timestamp
  stop : Timestamp
deriving DecidableEq, Repr

/-- `Timespan::new`: `Self { start: start.min(end), end: end.max(start) }`. -/
def Timespan.new (start stop : Timestamp) : Timespan :=
  ⟨start.minOf stop, stop.maxOf start⟩

end Time

end Stos

namespace Stos.Ass

/-! ## Style text parser (`src/ass.rs`)

`AssText::from_str` is a single left-to-right scan over the characters of the
input, with mutable state `escaped`, `brackets`, `dialogue`, `styled`; the
`return Err(...)` inside the loop becomes the `Except` bind chain. Braces are
written with their hex escapes `\x7b` / `\x7d` throughout.
-/

/-- Componentwise decidable equality for `Except` results. -/
instance {e a : Type} [DecidableEq e] [DecidableEq a] : DecidableEq (Except e a) :=
  fun x y =>
    match x, y with
    | .error u, .error v =>
      if h : u = v then .isTrue (by rw [h]) else .isFalse (by intro hh; cases hh; exact h rfl)
    | .error _, .ok _ => .isFalse (by intro hh; cases hh)
    | .ok _, .error _ => .isFalse (by intro hh; cases hh)
    | .ok u, .ok v =>
      if h : u = v then .isTrue (by rw [h]) else .isFalse (by intro hh; cases hh; exact h rfl)

/-- `AssError` of `src/ass.rs`. -/
inductive AssError where
  | UnbalancedBrackets
  | NotEnoughParts
deriving DecidableEq, Repr

/-- `AssText` of `src/ass.rs`: the raw `text`, the plain `dialogue`, and the
private `styled` flag. -/
structure AssText where
  text : String
  dialogue : String
  styled : Bool
deriving DecidableEq, Repr

/-- The four mutable loop variables of `AssText::from_str`. -/
structure ScanState where
  escaped : Bool
  brackets : Nat
  dialogue : String
  styled : Bool
deriving DecidableEq, Repr

/-- One iteration of the `for ch in s.chars()` loop of `AssText::from_str`. -/
def scanChar (st : ScanState) (ch : Char) : Except AssError ScanState :=
  if ch = '\x7b' then
    .ok { st with brackets := st.brackets + 1, styled := true }
  else if ch = '\x7d' then
    if st.brackets > 0 then .ok { st with brackets := st.brackets - 1 }
    else .error .UnbalancedBrackets
  else if st.brackets = 0 then
    if st.escaped then
      if ch = 'n' then .ok { st with dialogue := st.dialogue.push 'n', escaped := false }
      else .ok { st with dialogue := (st.dialogue.push '\\').push ch, escaped := false }
    else if ch = '\\' then .ok { st with escaped := true }
    else .ok { st with dialogue := st.dialogue.push ch }
  else
    .ok st

/-- The whole loop of `AssText::from_str` over a list of characters. -/
def scanChars (cs : List Char) (st : ScanState) : Except AssError ScanState :=
  match cs with
  | [] => .ok st
  | ch :: rest => (scanChar st ch).bind (scanChars rest)

/-- `AssText::from_str` (`impl FromStr for AssText`, `src/ass.rs`). -/
def AssText.from_str (s : String) : Except AssError AssText :=
  (scanChars s.data ⟨false, 0, "", false⟩).map fun st => ⟨s, st.dialogue, st.styled⟩

/-- Spec-side predicate (from the claim's words, not the source): the
character list contains a closing brace that is scanned at bracket depth 0,
starting from depth `d`. -/
def specHasCloseAtDepthZero : Nat → List Char → Bool
  | _, [] => false
  | d, ch :: rest =>
    if ch = '\x7b' then specHasCloseAtDepthZero (d + 1) rest
    else if ch = '\x7d' then
      if d = 0 then true else specHasCloseAtDepthZero (d - 1) rest
    else specHasCloseAtDepthZero d rest

/-- Spec-side predicate (from the claim's words, not the source): scanning
braces from depth `d ≥ 1`, the depth never returns to zero -- so an opening
brace placed just before this suffix is never closed. -/
def specNeverCloses : Nat → List Char → Bool
  | _, [] => true
  | d, ch :: rest =>
    if ch = '\x7b' then specNeverCloses (d + 1) rest
    else if ch = '\x7d' then
      if d ≤ 1 then false else specNeverCloses (d - 1) rest
    else specNeverCloses d rest

end Stos.Ass

namespace Stos.Subtitle

/-! ## Subtitle timeline builder (`src/subtitle.rs`)

The libav decoding boundary is abstracted into a list of per-packet outcomes:
`none` for a packet that decoded to nothing or whose conversion to
`av::Subtitle` failed (both are skipped with a warning in the source), and
`some sub` for a successfully converted event.
-/

/-- A decoded raster, compared pixel-for-pixel (`image::RgbaImage` equality). -/
structure RgbaImage where
  width : Nat
  height : Nat
  data : List Nat
deriving DecidableEq, Repr

/-- `DialogueEvent` of `src/ass.rs`. -/
structure DialogueEvent where
  name : String
  text : Stos.Ass.AssText
deriving DecidableEq, Repr

/-- `av::Rect` of `src/subtitle.rs`. -/
inductive Rect where
  | Text (s : String)
  | Ass (ev : DialogueEvent)
  | Bitmap (img : RgbaImage)
deriving DecidableEq, Repr

/-- `av::Subtitle` of `src/subtitle.rs`: the timeline builder's working record;
the end (`stop`, since `end` is reserved in Lean) may still be unknown. -/
structure AvSubtitle where
  start : Stos.Time.Timestamp
  stop : Option Stos.Time.Timestamp
  rects : List Rect
deriving DecidableEq, Repr

/-- The body of the packet loop of `read_subtitles_from_stream`
(`src/subtitle.rs`, lines 226-249): resolve the previous entry's unknown end
to the new event's start, then append the new event unless it carries no
rects. -/
def streamStep (subs : List AvSubtitle) (ev : Option AvSubtitle) : List AvSubtitle :=
  match ev with
  | none => subs
  | some sub =>
    let resolved :=
      match subs.getLast? with
      | none => subs
      | some prev =>
        if prev.stop = none then subs.dropLast ++ [{ prev with stop := some sub.start }]
        else subs
    if sub.rects.isEmpty then resolved else resolved ++ [sub]

/-- `read_subtitles_from_stream` (`src/subtitle.rs`): the packet loop as a
fold over the decoded event stream, starting from an empty list. -/
def read_subtitles_from_stream (evs : List (Option AvSubtitle)) : List AvSubtitle :=
  evs.foldl streamStep []

/-- `Dialogue` of `src/subtitle.rs`. -/
inductive Dialogue where
  | Text (s : String)
  | Ass (ev : DialogueEvent)
  | Bitmap (img : RgbaImage)
deriving DecidableEq, Repr

/-- `From<av::Rect> for Dialogue`. -/
def rectToDialogue : Rect → Dialogue
  | .Text s => .Text s
  | .Ass ev => .Ass ev
  | .Bitmap img => .Bitmap img

/-- The public `Subtitle` of `src/subtitle.rs`: a (total) timespan plus one
dialogue payload. -/
structure Subtitle where
  timespan : Stos.Time.Timespan
  diag : Dialogue
deriving DecidableEq, Repr

/-- `Subtitle::convert` (`src/subtitle.rs`, lines 304-313):
`rects.into_iter().filter_map(|rect| end.map(|end| Self { timespan: Timespan::new(start, end), diag: rect.into() }))`. -/
def Subtitle.convert (sub : AvSubtitle) : List Subtitle :=
  sub.rects.filterMap fun rect =>
    sub.stop.map fun e => ⟨Stos.Time.Timespan.new sub.start e, rectToDialogue rect⟩

/-- The public `read_subtitles_from_file` (`src/subtitle.rs`):
`subs.into_iter().flat_map(Subtitle::convert)`. -/
def read_subtitles_from_file (evs : List (Option AvSubtitle)) : List Subtitle :=
  (read_subtitles_from_stream evs).flatMap Subtitle.convert

end Stos.Subtitle

namespace Stos.Extract

/-! ## The extract tool (`crates/extract/src/subtitle.rs`)

Timestamps of the extract crate are plain `i64` values; the libav decoding
and `get_span` rescaling boundaries are abstracted as their results.
-/

/-- `SubtitleDialogue` of `crates/extract/src/subtitle.rs`. -/
inductive SubtitleDialogue where
  | Text (s : String)
  | Ass (ev : Stos.Subtitle.DialogueEvent)
  | Bitmap (img : Stos.Subtitle.RgbaImage)
deriving DecidableEq, Repr

/-- `Subtitle` of `crates/extract/src/subtitle.rs`: both bounds are plain
timestamps (`stop` stands for the `end` field). -/
structure Subtitle where
  start : Int
  stop : Int
  diag : SubtitleDialogue
deriving DecidableEq, Repr

/-- `Subtitle::convert_subtitle` (`crates/extract/src/subtitle.rs`, lines
174-205). `span` is the result of `get_span` (whose libav rescaling is
abstracted); each element of `rects` is the result of converting one rect
(`none` = the conversion failed, dropped with a warning). -/
def convert_subtitle (span : Except String (Int × Int))
    (rects : List (Option SubtitleDialogue)) : Except String (List Subtitle) :=
  match span with
  | .error e => .error e
  | .ok (start, stop) =>
    if start ≠ stop then
      let diags := rects.filterMap id
      if diags.isEmpty then .error "No rects"
      else .ok (diags.map fun diag => ⟨start, stop, diag⟩)
    else .error "Subtitle is of zero length"

/-- Association-list view of the `images: HashMap<RgbaImage, Rc<RefCell<Subtitle>>>`
of `read_subtitles`: each image maps to the index in the result list of the
entry that first carried it (the map is only ever extended with fresh keys). -/
def lookupImage : List (Stos.Subtitle.RgbaImage × Nat) → Stos.Subtitle.RgbaImage → Option Nat
  | [], _ => none
  | (k, v) :: rest, img => if k = img then some v else lookupImage rest img

/-- Mutation through the shared `Rc<RefCell<_>>`: overwrite the `end` field of
the entry at `idx`. -/
def setStop : List Subtitle → Nat → Int → List Subtitle
  | [], _, _ => []
  | s :: rest, 0, t => { s with stop := t } :: rest
  | s :: rest, idx + 1, t => s :: setStop rest idx t

/-- The per-subtitle body of the packet loop of `read_subtitles`
(`crates/extract/src/subtitle.rs`, lines 286-300): a bitmap dialogue whose
image was seen before rewrites that earlier entry's end to this entry's start
and appends nothing; a fresh bitmap is appended and recorded in the map; any
non-bitmap dialogue is appended unconditionally. -/
def readStep (acc : List Subtitle × List (Stos.Subtitle.RgbaImage × Nat)) (sub : Subtitle) :
    List Subtitle × List (Stos.Subtitle.RgbaImage × Nat) :=
  match sub.diag with
  | .Bitmap image =>
    (match lookupImage acc.2 image with
     | some idx => (setStop acc.1 idx sub.start, acc.2)
     | none => (acc.1 ++ [sub], acc.2 ++ [(image, acc.1.length)]))
  | _ => (acc.1 ++ [sub], acc.2)

/-- `read_subtitles` (`crates/extract/src/subtitle.rs`, lines 242-314)
restricted to its timeline-building loop: the input list is the stream of
successfully converted subtitles in packet order (packets that fail to decode
or convert contribute nothing and change no state). -/
def read_subtitles (subs : List Subtitle) : List Subtitle :=
  (subs.foldl readStep ([], [])).1

end Stos.Extract

namespace Stos.Util

/-! ## Checked timestamp arithmetic of the main crate (`src/util.rs`) -/

/-- `Timestamp` of `src/util.rs`: i64 nanoseconds. -/
structure Timestamp where
  nanos : Int
deriving DecidableEq, Repr

/-- `Duration` of `src/util.rs`: i64 nanoseconds. -/
structure Duration where
  nanos : Int
deriving DecidableEq, Repr

/-- `Duration::from_ms(ms: u32)`: `Self(ms as i64 * 1000000)`. -/
def Duration.from_ms (ms : Int) : Duration := ⟨ms * 1000000⟩

/-- `Timestamp::checked_add` (`src/util.rs`, lines 49-59): `i64::checked_add`
(`None` when the sum leaves the i64 range), then `None` when the sum is
negative. -/
def Timestamp.checked_add (t : Timestamp) (d : Duration) : Option Timestamp :=
  if i64Min ≤ t.nanos + d.nanos ∧ t.nanos + d.nanos ≤ i64Max then
    if 0 ≤ t.nanos + d.nanos then some ⟨t.nanos + d.nanos⟩ else none
  else none

/-- `Timestamp::checked_sub` (`src/util.rs`, lines 61-71). -/
def Timestamp.checked_sub (t : Timestamp) (d : Duration) : Option Timestamp :=
  if i64Min ≤ t.nanos - d.nanos ∧ t.nanos - d.nanos ≤ i64Max then
    if 0 ≤ t.nanos - d.nanos then some ⟨t.nanos - d.nanos⟩ else none
  else none

end Stos.Util

namespace Stos.Audio

/-- The per-subtitle clip span computed inside `generate_audio_command`
(`src/audio.rs`, lines 31-35):
`start.checked_sub(padding.0).unwrap_or(start)` and
`end.checked_add(padding.1).unwrap_or(end)`. The function takes no shift. -/
def clipSpan (start stop : Stos.Util.Timestamp)
    (padding : Stos.Util.Duration × Stos.Util.Duration) :
    Stos.Util.Timestamp × Stos.Util.Timestamp :=
  ((start.checked_sub padding.1).getD start, (stop.checked_add padding.2).getD stop)

/-- Spec-side definition following the claim's words (not the source): the
claimed clip start, `start - pad_begin` with saturating arithmetic clamped at
the domain bounds `[0, i64::MAX]`. -/
def specClipStart (start padBegin : Int) : Int := max (min (start - padBegin) i64Max) 0

end Stos.Audio

namespace Stos.Args

/-! ## Command-line argument parsing (`src/args.rs`)

Regexes are abstracted as their source strings, paths as strings, the log
level as a `Nat`, and the `random()` default deck id as a parameter. The
lexopt event stream is abstracted as a list of already-lexed argument events;
every `std::process::exit` and every propagated parse error make
`parse_from_env` return `none`.
-/

/-- `Args` of `src/args.rs` (`stop` stands for the `end` field). -/
structure Args where
  program : String
  sub_files : List String
  sub_stream : Option Nat
  sub_lang : Option String
  start : Stos.Time.Timestamp
  stop : Stos.Time.Timestamp
  blacklist : List String
  whitelist : List String
  ignore_styled : Bool
  merge : Bool
  merge_diff : Stos.Time.Duration
  media_files : List String
  gen_audio : Bool
  audio_stream : Option Nat
  audio_lang : Option String
  pad_begin : Stos.Time.Duration
  pad_end : Stos.Time.Duration
  shift_audio : Stos.Time.Duration
  join_audio : Bool
  job_count : Option Nat
  gen_images : Bool
  video_stream : Option Nat
  image_width : Option Nat
  image_height : Option Nat
  no_media : Bool
  no_deck : Bool
  deck_id : Int
  deck_name : String
  deck_desc : String
  package : String
  write_json : Bool
  dump : Bool
  verbosity : Nat
deriving DecidableEq, Repr

/-- `DEFAULT_MERGE_DIST` (`src/args.rs`). -/
def DEFAULT_MERGE_DIST : Int := 250

/-- `impl Default for Args` (`src/args.rs`, lines 114-152). -/
def Args.default_args (rand : Int) : Args where
  program := "stos"
  sub_files := []
  sub_stream := none
  sub_lang := none
  start := Stos.Time.Timestamp.min_const
  stop := Stos.Time.Timestamp.max_const
  blacklist := []
  whitelist := []
  ignore_styled := true
  merge := false
  merge_diff := Stos.Time.Duration.from_millis DEFAULT_MERGE_DIST
  media_files := []
  gen_audio := false
  audio_stream := none
  audio_lang := none
  pad_begin := Stos.Time.Duration.from_millis 0
  pad_end := Stos.Time.Duration.from_millis 0
  shift_audio := Stos.Time.Duration.from_millis 0
  join_audio := false
  job_count := none
  gen_images := false
  video_stream := none
  image_width := none
  image_height := none
  no_media := false
  no_deck := false
  deck_id := rand
  deck_name := "Stos Deck"
  deck_desc := "A deck generated by stos"
  package := "deck.apkg"
  write_json := false
  dump := false
  verbosity := 0

/-- One lexed argument event: one constructor per arm of the `match arg`
in `Args::parse_from_env` (`src/args.rs`, lines 167-314). -/
inductive ArgEvent where
  | help
  | version
  | media
  | subStream (n : Nat)
  | subLang (s : String)
  | start (t : Stos.Time.Timestamp)
  | stop (t : Stos.Time.Timestamp)
  | blacklist (re : String)
  | whitelist (re : String)
  | ignoreStyled
  | merge
  | maxDist (n : Int)
  | genAudio
  | audioStream (n : Nat)
  | audioLang (s : String)
  | padBegin (n : Int)
  | padEnd (n : Int)
  | shiftAudio (n : Int)
  | joinAudio
  | jobs (n : Nat)
  | genImages
  | videoStream (n : Nat)
  | noMedia
  | noDeck
  | deckId (n : Int)
  | deckName (s : String)
  | deckDesc (s : String)
  | output (s : String)
  | width (n : Nat)
  | height (n : Nat)
  | writeJson
  | dump
  | value (file : String)
  | verbosity (v : Nat)
  | unknownShort (c : Char)
  | unknownLong (s : String)
deriving DecidableEq, Repr

/-- The effect of one argument event on the parser state `(args, taking_media)`;
`none` models every arm that exits the process or propagates an error. -/
def applyArg (args : Args) (takingMedia : Bool) : ArgEvent → Option (Args × Bool)
  | .help => none
  | .version => none
  | .media => some (args, true)
  | .subStream n =>
    if args.sub_lang.isSome then none
    else some ({ args with sub_stream := some n }, takingMedia)
  | .subLang s =>
    if args.sub_stream.isSome then none
    else some ({ args with sub_lang := some s }, takingMedia)
  | .start t => some ({ args with start := t }, takingMedia)
  | .stop t => some ({ args with stop := t }, takingMedia)
  | .blacklist re => some ({ args with blacklist := args.blacklist ++ [re] }, takingMedia)
  | .whitelist re => some ({ args with whitelist := args.whitelist ++ [re] }, takingMedia)
  | .ignoreStyled => some ({ args with ignore_styled := true }, takingMedia)
  | .merge => some ({ args with merge := true }, takingMedia)
  | .maxDist n =>
    some ({ args with merge_diff := Stos.Time.Duration.from_millis n }, takingMedia)
  | .genAudio => some ({ args with gen_audio := true }, takingMedia)
  | .audioStream n =>
    if args.audio_lang.isSome then none
    else some ({ args with audio_stream := some n }, takingMedia)
  | .audioLang s =>
    if args.audio_stream.isSome then none
    else some ({ args with audio_lang := some s }, takingMedia)
  | .padBegin n =>
    some ({ args with pad_begin := Stos.Time.Duration.from_millis n }, takingMedia)
  | .padEnd n =>
    some ({ args with pad_end := Stos.Time.Duration.from_millis n }, takingMedia)
  | .shiftAudio n =>
    some ({ args with shift_audio := Stos.Time.Duration.from_millis n }, takingMedia)
  | .joinAudio => some ({ args with join_audio := true }, takingMedia)
  | .jobs n => some ({ args with job_count := some n }, takingMedia)
  | .genImages => some ({ args with gen_images := true }, takingMedia)
  | .videoStream n => some ({ args with video_stream := some n }, takingMedia)
  | .noMedia => some ({ args with no_media := true }, takingMedia)
  | .noDeck => some ({ args with no_deck := true }, takingMedia)
  | .deckId n => some ({ args with deck_id := n }, takingMedia)
  | .deckName s => some ({ args with deck_name := s }, takingMedia)
  | .deckDesc s => some ({ args with deck_desc := s }, takingMedia)
  | .output s => some ({ args with package := s }, takingMedia)
  | .width n => some ({ args with image_width := some n }, takingMedia)
  | .height n => some ({ args with image_height := some n }, takingMedia)
  | .writeJson => some ({ args with write_json := true }, takingMedia)
  | .dump => some ({ args with dump := true }, takingMedia)
  | .value file =>
    if takingMedia then some ({ args with media_files := args.media_files ++ [file] }, takingMedia)
    else some ({ args with sub_files := args.sub_files ++ [file] }, takingMedia)
  | .verbosity v => some ({ args with verbosity := v }, takingMedia)
  | .unknownShort _ => none
  | .unknownLong _ => none

/-- The `while let Some(arg) = parser.next()?` loop of `Args::parse_from_env`. -/
def parseLoop : List ArgEvent → Args → Bool → Option Args
  | [], args, _ => some args
  | ev :: rest, args, takingMedia =>
    match applyArg args takingMedia ev with
    | none => none
    | some (args', tm') => parseLoop rest args' tm'

/-- `Args::parse_from_env` (`src/args.rs`, lines 155-325): start from the
defaults (with the bin name taken from the environment), run the loop, and
exit (printing the help text) when no subtitle file was given. -/
def Args.parse_from_env (program : String) (rand : Int) (events : List ArgEvent) :
    Option Args :=
  match parseLoop events { Args.default_args rand with program := program } false with
  | none => none
  | some args => if args.sub_files.isEmpty then none else some args

end Stos.Args

open Stos Stos.Time Stos.Ass

/-! ## C5 and C6 -/

/-- C5. Timespan invariant: for every pair of timestamps `(s, e)`,
`Timespan::new(s, e)` (a total function -- it neither asserts nor errors)
produces the value with `start = min(s, e)` and `end = max(s, e)`, so every
constructed `Timespan` satisfies `start <= end`. -/
theorem timespan_new_normalizes (s e : Timestamp) :
    (Timespan.new s e).start = s.minOf e ∧
    (Timespan.new s e).stop = s.maxOf e ∧
    (Timespan.new s e).start ≤ (Timespan.new s e).stop := by
  refine ⟨rfl, ?_, ?_⟩
  · show Timestamp.maxOf e s = Timestamp.maxOf s e
    simp [Timestamp.maxOf, max_comm]
  · show (Timespan.new s e).start.millis ≤ (Timespan.new s e).stop.millis
    simp only [Timespan.new, Timestamp.minOf, Timestamp.maxOf]
    omega

/-- C6 counterexample. The claim quantifies over every `Timestamp t`, but the
`Timestamp` type wraps a full `i64` and negative values are reachable through
the public (unchecked) `Add<Duration>` impl; at `t = -1 ms` (reachable as
`Timestamp::from_millis(0) + Duration::from_millis(-1)`) and `d = 0 ≥ 0`,
`t.saturating_sub(d)` is `0`, which is *not* `≤ t`. -/
theorem saturating_sub_not_le_on_negative :
    Timestamp.add (Timestamp.from_millis 0)
      (Duration.from_millis (-1)) = ⟨-1⟩ ∧
    (0 : Int) ≤ (Duration.from_millis 0).millis ∧
    Timestamp.saturating_sub ⟨-1⟩ (Duration.from_millis 0) = ⟨0⟩ ∧
    ¬(Timestamp.saturating_sub ⟨-1⟩ (Duration.from_millis 0) ≤ ⟨-1⟩) := by
  exact ⟨rfl, le_refl 0, by decide, by decide⟩

/-- C6 amended. On the declared timestamp domain `[Timestamp::MIN, Timestamp::MAX]`
(that is, for `t` with `0 ≤ t`, which every strict or saturating constructor
produces) and for every in-range duration `d ≥ 0`:
`t.saturating_sub(d) ≤ t ≤ t.saturating_add(d)`, and `t.saturating_sub(d)`
never falls below the domain minimum `Timestamp::MIN = 0`. -/
theorem saturating_bounds (t : Timestamp) (d : Duration)
    (ht0 : Timestamp.min_const ≤ t) (htM : t ≤ Timestamp.max_const)
    (hd0 : 0 ≤ d.millis) (hdM : d.millis ≤ i64Max) :
    t.saturating_sub d ≤ t ∧ t ≤ t.saturating_add d ∧
    Timestamp.min_const ≤ t.saturating_sub d := by
  have h0 : (0 : Int) ≤ t.millis := ht0
  have hM : t.millis ≤ i64Max := htM
  refine ⟨?_, ?_, ?_⟩
  · show (t.saturating_sub d).millis ≤ t.millis
    simp only [Timestamp.saturating_sub, i64SaturatingSub, i64Min, i64Max] at *
    omega
  · show t.millis ≤ (t.saturating_add d).millis
    simp only [Timestamp.saturating_add, i64SaturatingAdd, i64Min, i64Max] at *
    omega
  · show (0 : Int) ≤ (t.saturating_sub d).millis
    simp only [Timestamp.saturating_sub]
    omega

/-- C6 witness: the amended theorem applied at `t = 5 ms`, `d = 3 ms`. -/
theorem saturating_bounds_witness :
    Timestamp.saturating_sub ⟨5⟩ ⟨3⟩ ≤ (⟨5⟩ : Timestamp) ∧
    (⟨5⟩ : Timestamp) ≤ Timestamp.saturating_add ⟨5⟩ ⟨3⟩ ∧
    Timestamp.min_const ≤ Timestamp.saturating_sub ⟨5⟩ ⟨3⟩ :=
  saturating_bounds ⟨5⟩ ⟨3⟩ (by decide) (by decide) (by decide) (by decide)

/-! ## Shared lemmas about the style-parser scan -/

theorem scanChars_append (xs ys : List Char) (st : ScanState) :
    scanChars (xs ++ ys) st = (scanChars xs st).bind (scanChars ys) := by
  induction xs generalizing st with
  | nil => simp [scanChars, Except.bind]
  | cons ch rest ih =>
    simp only [List.cons_append, scanChars]
    cases scanChar st ch with
    | error e => simp [Except.bind]
    | ok st' => simp [Except.bind, ih]

theorem scan_error_iff (cs : List Char) : ∀ st : ScanState,
    scanChars cs st = .error .UnbalancedBrackets ↔
      specHasCloseAtDepthZero st.brackets cs = true := by
  induction cs with
  | nil => intro st; simp [scanChars, specHasCloseAtDepthZero]
  | cons ch rest ih =>
    intro st
    simp only [scanChars, scanChar, specHasCloseAtDepthZero]
    by_cases hob : ch = '\x7b'
    · simpa [hob, Except.bind] using ih _
    · by_cases hcb : ch = '\x7d'
      · by_cases hbr : st.brackets = 0
        · simp [hob, hcb, hbr, Except.bind]
        · simpa [hob, hcb, hbr, Nat.pos_of_ne_zero hbr, Except.bind] using ih _
      · by_cases hbr : st.brackets = 0
        · by_cases hesc : st.escaped
          · by_cases hn : ch = 'n'
            · simpa [hob, hcb, hbr, hesc, hn, Except.bind] using ih _
            · simpa [hob, hcb, hbr, hesc, hn, Except.bind] using ih _
          · by_cases hbs : ch = '\\'
            · simpa [hob, hcb, hbr, hesc, hbs, Except.bind] using ih _
            · simpa [hob, hcb, hbr, hesc, hbs, Except.bind] using ih _
        · simpa [hob, hcb, hbr, Except.bind] using ih _

theorem scan_styled (cs : List Char) : ∀ st st' : ScanState,
    scanChars cs st = .ok st' → st'.styled = (st.styled || cs.contains '\x7b') := by
  induction cs with
  | nil =>
    intro st st' h
    simp [scanChars] at h
    simp [← h]
  | cons ch rest ih =>
    intro st st' h
    have hObSymm : ∀ d : Char, ¬ d = '\x7b' → ¬ '\x7b' = d := fun d hd hh => hd hh.symm
    simp only [scanChars, scanChar] at h
    by_cases hob : ch = '\x7b'
    · rw [if_pos hob] at h
      simp only [Except.bind] at h
      have := ih _ _ h
      simp [this, hob]
    · rw [if_neg hob] at h
      by_cases hcb : ch = '\x7d'
      · rw [if_pos hcb] at h
        by_cases hbr : st.brackets = 0
        · simp [hbr, Except.bind] at h
        · rw [if_pos (Nat.pos_of_ne_zero hbr)] at h
          simp only [Except.bind] at h
          have := ih _ _ h
          simp [this, hObSymm ch hob]
      · rw [if_neg hcb] at h
        by_cases hbr : st.brackets = 0
        · rw [if_pos hbr] at h
          by_cases hesc : st.escaped
          · rw [if_pos hesc] at h
            by_cases hn : ch = 'n'
            · rw [if_pos hn] at h
              simp only [Except.bind] at h
              have := ih _ _ h
              simp [this, hObSymm ch hob]
            · rw [if_neg hn] at h
              simp only [Except.bind] at h
              have := ih _ _ h
              simp [this, hObSymm ch hob]
          · rw [if_neg hesc] at h
            by_cases hbs : ch = '\\'
            · rw [if_pos hbs] at h
              simp only [Except.bind] at h
              have := ih _ _ h
              simp [this, hObSymm ch hob]
            · rw [if_neg hbs] at h
              simp only [Except.bind] at h
              have := ih _ _ h
              simp [this, hObSymm ch hob]
        · rw [if_neg hbr] at h
          simp only [Except.bind] at h
          have := ih _ _ h
          simp [this, hObSymm ch hob]

theorem scan_skip_neverCloses (cs : List Char) : ∀ st : ScanState,
    1 ≤ st.brackets → specNeverCloses st.brackets cs = true →
    ∃ st', scanChars cs st = .ok st' ∧ st'.dialogue = st.dialogue := by
  induction cs with
  | nil => intro st _ _; exact ⟨st, rfl, rfl⟩
  | cons ch rest ih =>
    intro st h1 h2
    simp only [specNeverCloses] at h2
    by_cases hob : ch = '\x7b'
    · rw [if_pos hob] at h2
      obtain ⟨st', hok, hd⟩ :=
        ih { st with brackets := st.brackets + 1, styled := true }
          (by show 1 ≤ st.brackets + 1; omega) h2
      exact ⟨st', by simp [scanChars, scanChar, hob, Except.bind, hok], hd⟩
    · rw [if_neg hob] at h2
      by_cases hcb : ch = '\x7d'
      · rw [if_pos hcb] at h2
        have hd2 : ¬ st.brackets ≤ 1 := by
          by_contra hle
          rw [if_pos hle] at h2
          exact Bool.false_ne_true h2
        rw [if_neg hd2] at h2
        obtain ⟨st', hok, hd⟩ := ih { st with brackets := st.brackets - 1 }
          (by show 1 ≤ st.brackets - 1; omega) h2
        have hpos : 0 < st.brackets := by omega
        exact ⟨st', by simp [scanChars, scanChar, hob, hcb, hpos, Except.bind, hok], hd⟩
      · rw [if_neg hcb] at h2
        obtain ⟨st', hok, hd⟩ := ih st h1 h2
        have hbr : ¬ st.brackets = 0 := by omega
        exact ⟨st', by simp [scanChars, scanChar, hob, hcb, hbr, Except.bind, hok], hd⟩

theorem specNeverCloses_mono (cs : List Char) : ∀ d d' : Nat, d ≤ d' →
    specNeverCloses d cs = true → specNeverCloses d' cs = true := by
  induction cs with
  | nil => intro d d' _ _; rfl
  | cons ch rest ih =>
    intro d d' hdd h
    simp only [specNeverCloses] at h ⊢
    by_cases hob : ch = '\x7b'
    · rw [if_pos hob] at h ⊢
      exact ih _ _ (by omega) h
    · rw [if_neg hob] at h ⊢
      by_cases hcb : ch = '\x7d'
      · rw [if_pos hcb] at h ⊢
        have hd1 : ¬ d ≤ 1 := by
          by_contra hle
          rw [if_pos hle] at h
          exact Bool.false_ne_true h
        rw [if_neg hd1] at h
        have hd1' : ¬ d' ≤ 1 := by omega
        rw [if_neg hd1']
        exact ih _ _ (by omega) h
      · rw [if_neg hcb] at h ⊢
        exact ih _ _ hdd h

theorem from_str_error_iff (s : String) :
    AssText.from_str s = .error .UnbalancedBrackets ↔
      scanChars s.data ⟨false, 0, "", false⟩ = .error .UnbalancedBrackets := by
  unfold AssText.from_str
  cases hs : scanChars s.data ⟨false, 0, "", false⟩ <;> simp [Except.map]

/-! ## C3, C7, C9 -/

/-- C3. `AssText::from_str` returns `Err(UnbalancedBrackets)` exactly when the
input has a closing brace at bracket depth 0 (so in particular every such
input, e.g. `"a}b"`, is rejected); the balanced `"a{b{c}d}e"` plain-reduces to
`"ae"` (characters at depth > 0 are discarded); and for every accepted input
`is_styled` is true iff the input contains at least one opening brace. -/
theorem ass_from_str_spec :
    (∀ s : String, AssText.from_str s = .error .UnbalancedBrackets ↔
      specHasCloseAtDepthZero 0 s.data = true) ∧
    AssText.from_str "a\x7db" = .error .UnbalancedBrackets ∧
    AssText.from_str "a\x7bb\x7bc\x7dd\x7de" =
      .ok ⟨"a\x7bb\x7bc\x7dd\x7de", "ae", true⟩ ∧
    (∀ (s : String) (r : AssText), AssText.from_str s = .ok r →
      r.styled = s.data.contains '\x7b') := by
  refine ⟨?_, by decide, by decide, ?_⟩
  · intro s
    exact (from_str_error_iff s).trans (scan_error_iff s.data ⟨false, 0, "", false⟩)
  · intro s r h
    unfold AssText.from_str at h
    cases hs : scanChars s.data ⟨false, 0, "", false⟩ with
    | error e => rw [hs] at h; simp [Except.map] at h
    | ok st =>
      rw [hs] at h
      simp only [Except.map, Except.ok.injEq] at h
      have hst := scan_styled s.data ⟨false, 0, "", false⟩ st hs
      rw [← h]
      simpa using hst

/-- C3 witness: the theorem applied at `"x}y"` (rejected) and `"a{b}"`
(accepted, styled since it contains an opening brace). -/
theorem ass_from_str_spec_witness :
    specHasCloseAtDepthZero 0 ("x\x7dy" : String).data = true ∧
    (AssText.mk "a\x7bb\x7d" "a" true).styled = ("a\x7bb\x7d" : String).data.contains '\x7b' :=
  ⟨(ass_from_str_spec.1 "x\x7dy").mp (by decide),
   ass_from_str_spec.2.2.2 "a\x7bb\x7d" ⟨"a\x7bb\x7d", "a", true⟩ (by decide)⟩

/-- C9. An opening brace that is never closed is not an error: if a prefix `p`
parses to `Ok` and the suffix `q` never brings the depth of the brace opened
between them back to zero, then `from_str (p ++ "{" ++ q)` returns `Ok`, its
plain dialogue is exactly that of `p` (everything from the unclosed `{` on is
discarded), and `is_styled` is reported true. -/
theorem ass_unclosed_open_brace_ok (p q : String) (rp : AssText)
    (hp : AssText.from_str p = .ok rp) (hq : specNeverCloses 1 q.data = true) :
    AssText.from_str (p ++ "\x7b" ++ q) =
      .ok ⟨p ++ "\x7b" ++ q, rp.dialogue, true⟩ := by
  obtain ⟨stp, hsp, hrp⟩ : ∃ stp, scanChars p.data ⟨false, 0, "", false⟩ = .ok stp ∧
      rp = ⟨p, stp.dialogue, stp.styled⟩ := by
    unfold AssText.from_str at hp
    cases hs : scanChars p.data ⟨false, 0, "", false⟩ with
    | error e => rw [hs] at hp; simp [Except.map] at hp
    | ok st =>
      rw [hs] at hp
      simp only [Except.map, Except.ok.injEq] at hp
      exact ⟨st, rfl, hp.symm⟩
  have hdata : (p ++ "\x7b" ++ q).data = p.data ++ ('\x7b' :: q.data) := by
    simp [String.data_append]
  obtain ⟨stq, hsq, hdq⟩ := scan_skip_neverCloses q.data
    { stp with brackets := stp.brackets + 1, styled := true }
    (by show 1 ≤ stp.brackets + 1; omega)
    (specNeverCloses_mono q.data 1 (stp.brackets + 1) (by omega) hq)
  have hstyq := scan_styled q.data
    { stp with brackets := stp.brackets + 1, styled := true } stq hsq
  have hstep : scanChar stp '\x7b' =
      .ok { stp with brackets := stp.brackets + 1, styled := true } := by
    simp [scanChar]
  unfold AssText.from_str
  rw [hdata, scanChars_append, hsp]
  simp only [scanChars, hstep, Except.bind]
  rw [hsq]
  simp only [Except.map, Except.ok.injEq, hrp]
  simp only [AssText.mk.injEq]
  exact ⟨trivial, by simpa using hdq, by simpa using hstyq⟩

/-- C9 witness: the theorem applied at `p = "ab"`, `q = "cd"`. -/
theorem ass_unclosed_open_brace_ok_witness :
    AssText.from_str ("ab" ++ "\x7b" ++ "cd") =
      .ok ⟨"ab" ++ "\x7b" ++ "cd", "ab", true⟩ :=
  ass_unclosed_open_brace_ok "ab" "cd" ⟨"ab", "ab", false⟩ (by decide) (by decide)

/-- C7 counterexample. The claim says every `\X` with `X ≠ 'n'` is passed
through as the literal pair; but for `X = '{'` the brace branch takes
precedence: `from_str "\{"` yields plain output `""` (and `styled = true`),
not the pair `"\{"`. -/
theorem ass_escaped_brace_not_passed_through :
    AssText.from_str "\\\x7b" = .ok ⟨"\\\x7b", "", true⟩ ∧
    ("" : String) ≠ "\\\x7b" :=
  ⟨by decide, by decide⟩

/-- C7 amended. At bracket depth 0 and outside an escape, `\n` appends the
single literal character `n` to the plain output, and `\X` for every other
character `X` that is neither `'{'` nor `'}'` appends the pair backslash-`X`;
(`\{` instead opens an override block and `\}` at depth 0 is an
`UnbalancedBrackets` error). -/
theorem ass_escape_handling (X : Char) (st : ScanState)
    (hesc : st.escaped = false) (hbr : st.brackets = 0)
    (hn : X ≠ 'n') (hob : X ≠ '\x7b') (hcb : X ≠ '\x7d') :
    scanChars ['\\', X] st = .ok { st with dialogue := (st.dialogue.push '\\').push X } ∧
    scanChars ['\\', 'n'] st = .ok { st with dialogue := st.dialogue.push 'n' } := by
  constructor
  · simp [scanChars, scanChar, hesc, hbr, hn, hob, hcb, Except.bind]
  · simp [scanChars, scanChar, hesc, hbr, Except.bind]

/-- C7 witness: the amended theorem applied at `X = 'q'` from the initial
scan state. -/
theorem ass_escape_handling_witness :
    scanChars ['\\', 'q'] ⟨false, 0, "", false⟩ = .ok ⟨false, 0, "\\q", false⟩ ∧
    scanChars ['\\', 'n'] ⟨false, 0, "", false⟩ = .ok ⟨false, 0, "n", false⟩ :=
  ass_escape_handling 'q' ⟨false, 0, "", false⟩ rfl rfl (by decide) (by decide) (by decide)

/-! ## C2 -/

/-- C2. Timeline building yields only fully bounded subtitles: (1) when a new
event arrives while the most recently appended entry's end is unknown, that
entry's end is resolved to the new event's start; (2) an entry whose end is
still unresolved is discarded by `Subtitle::convert` (it yields nothing); and
(3) every `Subtitle` returned by `read_subtitles_from_file` originates from an
entry with a resolved end, and its timespan carries that entry's start and
resolved end (both defined). -/
theorem timeline_builder_bounded :
    (∀ (subs : List Stos.Subtitle.AvSubtitle) (prev sub : Stos.Subtitle.AvSubtitle),
      subs.getLast? = some prev → prev.stop = none →
      (Stos.Subtitle.streamStep subs (some sub))[subs.length - 1]? =
        some { prev with stop := some sub.start }) ∧
    (∀ sub : Stos.Subtitle.AvSubtitle, sub.stop = none →
      Stos.Subtitle.Subtitle.convert sub = []) ∧
    (∀ (evs : List (Option Stos.Subtitle.AvSubtitle)) (s : Stos.Subtitle.Subtitle),
      s ∈ Stos.Subtitle.read_subtitles_from_file evs →
      ∃ av, av ∈ Stos.Subtitle.read_subtitles_from_stream evs ∧
        ∃ e, av.stop = some e ∧ s.timespan = Timespan.new av.start e) := by
  refine ⟨?_, ?_, ?_⟩
  · intro subs prev sub hlast hnone
    have hlen : 1 ≤ subs.length := by
      cases subs with
      | nil => simp at hlast
      | cons a l => simp
    have hdrop : subs.dropLast.length = subs.length - 1 := List.length_dropLast subs
    simp only [Stos.Subtitle.streamStep, hlast]
    rw [if_pos hnone]
    by_cases hre : sub.rects.isEmpty
    · rw [if_pos hre]
      rw [List.getElem?_append_right (by simp [hdrop])]
      simp [hdrop]
    · rw [if_neg hre]
      rw [List.getElem?_append_left (by simp [hdrop])]
      rw [List.getElem?_append_right (by simp [hdrop])]
      simp [hdrop]
  · intro sub hnone
    simp [Stos.Subtitle.Subtitle.convert, hnone]
  · intro evs s hs
    obtain ⟨av, hav, hmem⟩ := List.mem_flatMap.mp hs
    obtain ⟨rect, _hrect, hsome⟩ := List.mem_filterMap.mp hmem
    obtain ⟨e, he, hval⟩ := Option.map_eq_some'.mp hsome
    exact ⟨av, hav, e, he, by rw [← hval]⟩

/-- C2 witness: the three parts applied to concrete one-event data. -/
theorem timeline_builder_bounded_witness :
    (Stos.Subtitle.streamStep [⟨⟨0⟩, none, [.Text "x"]⟩]
        (some ⟨⟨5⟩, none, [.Text "y"]⟩))[0]? =
      some ⟨⟨0⟩, some ⟨5⟩, [.Text "x"]⟩ ∧
    Stos.Subtitle.Subtitle.convert ⟨⟨0⟩, none, [.Text "x"]⟩ = [] ∧
    ∃ av, av ∈ Stos.Subtitle.read_subtitles_from_stream
        [some ⟨⟨0⟩, some ⟨2⟩, [.Text "x"]⟩] ∧
      ∃ e, av.stop = some e ∧
        (⟨Timespan.new ⟨0⟩ ⟨2⟩, .Text "x"⟩ : Stos.Subtitle.Subtitle).timespan =
          Timespan.new av.start e := by
  refine ⟨?_, ?_, ?_⟩
  · exact timeline_builder_bounded.1 [⟨⟨0⟩, none, [.Text "x"]⟩]
      ⟨⟨0⟩, none, [.Text "x"]⟩ ⟨⟨5⟩, none, [.Text "y"]⟩ (by decide) rfl
  · exact timeline_builder_bounded.2.1 ⟨⟨0⟩, none, [.Text "x"]⟩ rfl
  · exact timeline_builder_bounded.2.2 [some ⟨⟨0⟩, some ⟨2⟩, [.Text "x"]⟩]
      ⟨Timespan.new ⟨0⟩ ⟨2⟩, .Text "x"⟩ (by decide)

/-! ## C1 -/

theorem extract_fold_same_image (rest : List Stos.Extract.Subtitle) :
    ∀ (e : Stos.Extract.Subtitle) (img : Stos.Subtitle.RgbaImage),
    (∀ s ∈ rest, s.diag = .Bitmap img) →
    rest.foldl Stos.Extract.readStep ([e], [(img, 0)]) =
      ([{ e with stop := ((rest.getLast?).map Stos.Extract.Subtitle.start).getD e.stop }],
       [(img, 0)]) := by
  induction rest with
  | nil => intro e img _; simp
  | cons s rest ih =>
    intro e img h
    have hs : s.diag = .Bitmap img := h s (by simp)
    have hrest : ∀ x ∈ rest, x.diag = .Bitmap img := fun x hx => h x (by simp [hx])
    simp only [List.foldl_cons]
    have hstep : Stos.Extract.readStep ([e], [(img, 0)]) s =
        ([{ e with stop := s.start }], [(img, 0)]) := by
      simp [Stos.Extract.readStep, hs, Stos.Extract.lookupImage, Stos.Extract.setStop]
    rw [hstep, ih _ _ hrest]
    cases rest with
    | nil => simp
    | cons r rs =>
      have hsome : (r :: rs).getLast? = some ((r :: rs).getLast (by simp)) :=
        List.getLast?_eq_getLast _ _
      simp [List.getLast?_cons_cons, hsome]

/-- C1 counterexample. Three entries with the identical bitmap dialogue at
`[0,100]`, `[150,200]`, `[500,600]` do *not* consolidate to the claimed two
entries `[0,200]` and `[500,600]`: the code keys the open entry by image with
no gap bound at all and rewrites its end to each repeat's *start*, so the
result is the single entry `[0,500]`. -/
theorem extract_merge_counterexample :
    Stos.Extract.read_subtitles
      [⟨0, 100, .Bitmap ⟨1, 1, [0]⟩⟩, ⟨150, 200, .Bitmap ⟨1, 1, [0]⟩⟩,
       ⟨500, 600, .Bitmap ⟨1, 1, [0]⟩⟩] =
      [⟨0, 500, .Bitmap ⟨1, 1, [0]⟩⟩] ∧
    (Stos.Extract.read_subtitles
      [⟨0, 100, .Bitmap ⟨1, 1, [0]⟩⟩, ⟨150, 200, .Bitmap ⟨1, 1, [0]⟩⟩,
       ⟨500, 600, .Bitmap ⟨1, 1, [0]⟩⟩]).length ≠ 2 :=
  ⟨by decide, by decide⟩

/-- C1 amended. The extract tool's `read_subtitles` consolidates only bitmap
dialogues, keyed by pixel-identical image, with no maximum-gap bound: for every
run of entries all carrying the same bitmap image, the result is the single
first entry, whose end has been rewritten to the *start* of the last repeat
(or kept when there is no repeat). In particular three identical-bitmap
entries at `[0,100]`, `[150,200]`, `[500,600]` collapse to one entry
`[0,500]`. -/
theorem extract_read_subtitles_same_bitmap (img : Stos.Subtitle.RgbaImage)
    (first : Stos.Extract.Subtitle) (rest : List Stos.Extract.Subtitle)
    (hf : first.diag = .Bitmap img) (hr : ∀ s ∈ rest, s.diag = .Bitmap img) :
    Stos.Extract.read_subtitles (first :: rest) =
      [{ first with
          stop := ((rest.getLast?).map Stos.Extract.Subtitle.start).getD first.stop }] := by
  unfold Stos.Extract.read_subtitles
  simp only [List.foldl_cons]
  have hstep : Stos.Extract.readStep ([], []) first = ([first], [(img, 0)]) := by
    simp [Stos.Extract.readStep, hf, Stos.Extract.lookupImage]
  rw [hstep, extract_fold_same_image rest first img hr]

/-- C1 witness: the amended theorem applied to two identical-bitmap entries. -/
theorem extract_read_subtitles_same_bitmap_witness :
    Stos.Extract.read_subtitles
      [⟨0, 100, .Bitmap ⟨1, 1, [7]⟩⟩, ⟨150, 200, .Bitmap ⟨1, 1, [7]⟩⟩] =
      [⟨0, 150, .Bitmap ⟨1, 1, [7]⟩⟩] :=
  (extract_read_subtitles_same_bitmap ⟨1, 1, [7]⟩ ⟨0, 100, .Bitmap ⟨1, 1, [7]⟩⟩
    [⟨150, 200, .Bitmap ⟨1, 1, [7]⟩⟩] rfl (by decide)).trans (by decide)

/-! ## C10 -/

/-- C10. `Subtitle::convert_subtitle` in the extract tool: (1) every emitted
subtitle has start distinct from end (and at least one is emitted on
success); (2) a computed span with start = end yields the error "Subtitle is
of zero length"; (3) a nonzero span all of whose rect conversions failed
yields the error "No rects". -/
theorem extract_convert_subtitle_errors :
    (∀ (span : Except String (Int × Int))
      (rects : List (Option Stos.Extract.SubtitleDialogue))
      (subs : List Stos.Extract.Subtitle),
      Stos.Extract.convert_subtitle span rects = .ok subs →
      subs ≠ [] ∧ ∀ sb ∈ subs, sb.start ≠ sb.stop) ∧
    (∀ (t : Int) (rects : List (Option Stos.Extract.SubtitleDialogue)),
      Stos.Extract.convert_subtitle (.ok (t, t)) rects =
        .error "Subtitle is of zero length") ∧
    (∀ (a b : Int) (rects : List (Option Stos.Extract.SubtitleDialogue)),
      a ≠ b → rects.filterMap id = [] →
      Stos.Extract.convert_subtitle (.ok (a, b)) rects = .error "No rects") := by
  refine ⟨?_, ?_, ?_⟩
  · intro span rects subs h
    match span with
    | .error e => simp [Stos.Extract.convert_subtitle] at h
    | .ok (a, b) =>
      simp only [Stos.Extract.convert_subtitle] at h
      by_cases hab : a ≠ b
      · rw [if_pos hab] at h
        by_cases hd : (rects.filterMap id).isEmpty
        · rw [if_pos hd] at h
          simp at h
        · rw [if_neg hd] at h
          simp only [Except.ok.injEq] at h
          subst h
          constructor
          · simp only [ne_eq, List.map_eq_nil_iff]
            intro hnil
            rw [hnil] at hd
            simp at hd
          · intro sb hsb
            obtain ⟨d, _hd2, hval⟩ := List.mem_map.mp hsb
            rw [← hval]
            exact hab
      · rw [if_neg hab] at h
        simp at h
  · intro t rects
    simp [Stos.Extract.convert_subtitle]
  · intro a b rects hab hnil
    simp only [Stos.Extract.convert_subtitle]
    rw [if_pos hab, hnil]
    simp

/-- C10 witness: the three parts applied at concrete inputs. -/
theorem extract_convert_subtitle_errors_witness :
    (([⟨0, 2, .Text "x"⟩] : List Stos.Extract.Subtitle) ≠ [] ∧
      ∀ sb ∈ ([⟨0, 2, .Text "x"⟩] : List Stos.Extract.Subtitle),
        sb.start ≠ sb.stop) ∧
    Stos.Extract.convert_subtitle (.ok (5, 5)) [some (.Text "x")] =
      .error "Subtitle is of zero length" ∧
    Stos.Extract.convert_subtitle (.ok (0, 1)) [none] = .error "No rects" := by
  refine ⟨?_, ?_, ?_⟩
  · exact extract_convert_subtitle_errors.1 (.ok (0, 2)) [some (.Text "x")]
      [⟨0, 2, .Text "x"⟩] (by decide)
  · exact extract_convert_subtitle_errors.2.1 5 [some (.Text "x")]
  · exact extract_convert_subtitle_errors.2.2 0 1 [none] (by decide) (by decide)

/-! ## C4 -/

/-- C4 counterexample. At entry start 5 ns with `pad_begin` of 1 ms, the code
reverts to the *unpadded* start (5 ns): `checked_sub` underflows below zero,
and `unwrap_or` substitutes the original start. The claimed saturating
arithmetic would clamp to the domain minimum 0 instead. (The cited
`generate_audio_command` also takes no shift parameter at all.) -/
theorem audio_clip_reverts_counterexample :
    (Stos.Audio.clipSpan ⟨5⟩ ⟨100⟩
      (Stos.Util.Duration.from_ms 1, Stos.Util.Duration.from_ms 0)).1 = ⟨5⟩ ∧
    Stos.Audio.specClipStart 5 (Stos.Util.Duration.from_ms 1).nanos = 0 ∧
    (5 : Int) ≠ 0 :=
  ⟨by decide, by decide, by decide⟩

/-- C4 amended. For every surviving entry and in-range paddings, the exported
clip start is `start - pad_begin` when that difference is nonnegative and
representable, and otherwise *reverts to the unpadded start* (not a clamp);
symmetrically the clip end is `end + pad_end` when nonnegative and
representable, else the unpadded end. No shift is applied in this code path. -/
theorem audio_clip_span_characterization (s e : Stos.Util.Timestamp)
    (p0 p1 : Stos.Util.Duration)
    (hs : 0 ≤ s.nanos) (hsM : s.nanos ≤ i64Max)
    (he : 0 ≤ e.nanos) (heM : e.nanos ≤ i64Max)
    (hp0 : i64Min ≤ p0.nanos) (hp0M : p0.nanos ≤ i64Max)
    (hp1 : i64Min ≤ p1.nanos) (hp1M : p1.nanos ≤ i64Max) :
    (Stos.Audio.clipSpan s e (p0, p1)).1 =
      (if 0 ≤ s.nanos - p0.nanos ∧ s.nanos - p0.nanos ≤ i64Max
        then ⟨s.nanos - p0.nanos⟩ else s) ∧
    (Stos.Audio.clipSpan s e (p0, p1)).2 =
      (if 0 ≤ e.nanos + p1.nanos ∧ e.nanos + p1.nanos ≤ i64Max
        then ⟨e.nanos + p1.nanos⟩ else e) := by
  constructor
  · show (Stos.Util.Timestamp.checked_sub s p0).getD s = _
    unfold Stos.Util.Timestamp.checked_sub
    by_cases hc : 0 ≤ s.nanos - p0.nanos ∧ s.nanos - p0.nanos ≤ i64Max
    · have hrange : i64Min ≤ s.nanos - p0.nanos ∧ s.nanos - p0.nanos ≤ i64Max := by
        simp only [i64Min, i64Max] at *
        omega
      rw [if_pos hrange, if_pos hc.1, if_pos hc]
      rfl
    · rw [if_neg hc]
      by_cases hr : i64Min ≤ s.nanos - p0.nanos ∧ s.nanos - p0.nanos ≤ i64Max
      · have hneg : ¬ 0 ≤ s.nanos - p0.nanos := by
          intro habs
          exact hc ⟨habs, hr.2⟩
        rw [if_pos hr, if_neg hneg]
        rfl
      · rw [if_neg hr]
        rfl
  · show (Stos.Util.Timestamp.checked_add e p1).getD e = _
    unfold Stos.Util.Timestamp.checked_add
    by_cases hc : 0 ≤ e.nanos + p1.nanos ∧ e.nanos + p1.nanos ≤ i64Max
    · have hrange : i64Min ≤ e.nanos + p1.nanos ∧ e.nanos + p1.nanos ≤ i64Max := by
        simp only [i64Min, i64Max] at *
        omega
      rw [if_pos hrange, if_pos hc.1, if_pos hc]
      rfl
    · rw [if_neg hc]
      by_cases hr : i64Min ≤ e.nanos + p1.nanos ∧ e.nanos + p1.nanos ≤ i64Max
      · have hneg : ¬ 0 ≤ e.nanos + p1.nanos := by
          intro habs
          exact hc ⟨habs, hr.2⟩
        rw [if_pos hr, if_neg hneg]
        rfl
      · rw [if_neg hr]
        rfl

/-- C4 witness: the amended theorem applied at start 10, end 10, paddings 3. -/
theorem audio_clip_span_characterization_witness :
    (Stos.Audio.clipSpan ⟨10⟩ ⟨10⟩ (⟨3⟩, ⟨3⟩)).1 =
      (if (0 : Int) ≤ 10 - 3 ∧ (10 : Int) - 3 ≤ i64Max
        then (⟨10 - 3⟩ : Stos.Util.Timestamp) else ⟨10⟩) ∧
    (Stos.Audio.clipSpan ⟨10⟩ ⟨10⟩ (⟨3⟩, ⟨3⟩)).2 =
      (if (0 : Int) ≤ 10 + 3 ∧ (10 : Int) + 3 ≤ i64Max
        then (⟨10 + 3⟩ : Stos.Util.Timestamp) else ⟨10⟩) :=
  audio_clip_span_characterization ⟨10⟩ ⟨10⟩ ⟨3⟩ ⟨3⟩
    (by decide) (by decide) (by decide) (by decide)
    (by decide) (by decide) (by decide) (by decide)

/-! ## C8 -/

theorem args_applyArg_preserves (args : Stos.Args.Args) (tm : Bool)
    (ev : Stos.Args.ArgEvent) (args' : Stos.Args.Args) (tm' : Bool)
    (h : Stos.Args.applyArg args tm ev = some (args', tm'))
    (hi : args.ignore_styled = true) : args'.ignore_styled = true := by
  cases ev <;> simp only [Stos.Args.applyArg] at h <;> (try split at h)
  all_goals
    first
    | exact Option.noConfusion h
    | (injection h with hpair
       injection hpair with ha ht
       subst ha
       simp_all)

theorem args_parseLoop_preserves (evs : List Stos.Args.ArgEvent) :
    ∀ (args : Stos.Args.Args) (tm : Bool) (args' : Stos.Args.Args),
    Stos.Args.parseLoop evs args tm = some args' →
    args.ignore_styled = true → args'.ignore_styled = true := by
  induction evs with
  | nil =>
    intro args tm args' h hi
    simp only [Stos.Args.parseLoop, Option.some.injEq] at h
    rwa [← h]
  | cons ev rest ih =>
    intro args tm args' h hi
    simp only [Stos.Args.parseLoop] at h
    cases ha : Stos.Args.applyArg args tm ev with
    | none => rw [ha] at h; simp at h
    | some p =>
      rw [ha] at h
      obtain ⟨a2, t2⟩ := p
      exact ih a2 t2 args' h (args_applyArg_preserves args tm ev a2 t2 ha hi)

/-- C8. Implicit: for every lexed argument vector accepted by
`Args::parse_from_env`, the resulting configuration has
`ignore_styled = true`: the default is already true and the
`--ignore-styled` arm is the only write to the field, setting it to true
again, so the drop-styled filter can never be disabled from the command
line. -/
theorem args_ignore_styled_always_true (program : String) (rand : Int)
    (evs : List Stos.Args.ArgEvent) (args : Stos.Args.Args)
    (h : Stos.Args.Args.parse_from_env program rand evs = some args) :
    args.ignore_styled = true := by
  unfold Stos.Args.Args.parse_from_env at h
  cases hp : Stos.Args.parseLoop evs
      { Stos.Args.Args.default_args rand with program := program } false with
  | none => rw [hp] at h; simp at h
  | some a =>
    rw [hp] at h
    dsimp only at h
    have ha : a.ignore_styled = true :=
      args_parseLoop_preserves evs _ false a hp rfl
    by_cases hemp : a.sub_files.isEmpty
    · rw [if_pos hemp] at h
      simp at h
    · rw [if_neg hemp] at h
      simp only [Option.some.injEq] at h
      rw [← h]
      exact ha

/-- C8 witness: the theorem applied to the argument vector `["a.srt"]`. -/
theorem args_ignore_styled_witness :
    ({ Stos.Args.Args.default_args 0 with
        program := "stos", sub_files := ["a.srt"] }).ignore_styled = true :=
  args_ignore_styled_always_true "stos" 0 [.value "a.srt"] _ (by decide)
